/-
Verification of the Calm Learning Hub application (app.py): the lesson
progress / assignment data model and its state transitions, the help-request
mailbox, signup validation, the linked-grown-ups query, the local fallback
text simplifier, and password checking.

Python strings are modelled as Lean `String` (compared only for equality) or,
where character-level processing matters (strip/split/join), as `List Char`.
Machine integers do not overflow in any relevant path; `progress_step` is a
Python int and is modelled as `Int` (it can legitimately be negative or out of
range relative to a recomputed step count). Timestamps are opaque strings
passed in as parameters ("the current UTC timestamp" is whatever
`datetime.datetime.utcnow().isoformat()` returned at that moment). The SQLite
tables are modelled as lists of rows; `UPDATE ... WHERE id = ?` maps over the
list updating the matching rows, and `INSERT` appends.
-/
import Mathlib

namespace CalmLearning

/-- Characters Python's `str.strip()` removes: space, \t, \n, \r, \x0b, \x0c. -/
def pyWhitespace (c : Char) : Bool :=
  c = ' ' || c = '\t' || c = '\n' || c = '\r' || c = '\x0b' || c = '\x0c'

/-- Python `str.strip()` on a character list: drop whitespace from both ends. -/
def pyStripL (l : List Char) : List Char :=
  ((l.dropWhile pyWhitespace).reverse.dropWhile pyWhitespace).reverse

/-- Python `str.split(sep)` for a single-character separator: `"".split(".")`
is `[""]`, separators at the ends produce empty pieces. -/
def splitOnChar (sep : Char) : List Char → List (List Char)
  | [] => [[]]
  | c :: cs =>
    let r := splitOnChar sep cs
    if c = sep then [] :: r
    else
      match r with
      | [] => [[c]]
      | h :: t => (c :: h) :: t

/-- Python `sep.join(parts)`. -/
def joinSep (sep : List Char) : List (List Char) → List Char
  | [] => []
  | [x] => x
  | x :: y :: rest => x ++ sep ++ joinSep sep (y :: rest)

/-- app.py `hash_password`: the SHA-256 hex digest of the UTF-8 encoded
password. The digest itself is library code (`hashlib`), modelled as an
arbitrary function parameter `sha256hex`. -/
def hash_password (sha256hex : String → String) (pw : String) : String :=
  sha256hex pw

/-- app.py `check_password`: recompute the hash and compare with the stored one. -/
def check_password (sha256hex : String → String) (pw hashed : String) : Bool :=
  hash_password sha256hex pw == hashed

/-! ## Data model (SQLite tables as lists of rows) -/

/-- A row of the `users` table. -/
structure Account where
  id : Nat
  name : String
  email : String
  password_hash : String
  role : String
deriving DecidableEq

/-- A row of `teacher_learners` or `parent_children`: `grownup_id` is the
`teacher_id` resp. `parent_id` column. -/
structure Edge where
  grownup_id : Nat
  learner_id : Nat
deriving DecidableEq

/-- A row of the `lessons` table. -/
structure Lesson where
  id : Nat
  owner_id : Nat
  owner_role : String
  title : String
  original_text : String
  friendly_text : String
  image_b64 : String
  created_at : String
deriving DecidableEq

/-- A row of the `lesson_assignments` table. -/
structure Assignment where
  id : Nat
  lesson_id : Nat
  learner_id : Nat
  status : String
  progress_step : Int
  completed_at : Option String
deriving DecidableEq

/-- A row of the `help_requests` table (`resolved` is an INTEGER flag). -/
structure HelpRequest where
  id : Nat
  learner_id : Nat
  to_user_id : Nat
  message : String
  created_at : String
  resolved : Bool
deriving DecidableEq

/-- The whole database. -/
structure Store where
  users : List Account
  teacher_learners : List Edge
  parent_children : List Edge
  lessons : List Lesson
  lesson_assignments : List Assignment
  help_requests : List HelpRequest
deriving DecidableEq

/-- The freshly initialised database (`init_db` creates empty tables). -/
def emptyStore : Store := ⟨[], [], [], [], [], []⟩

/-! ## Learner view of one assignment (app.py lines 735-793) -/

/-- app.py line 735: `steps = [s for s in a["friendly_text"].split("\n") if s.strip()]`. -/
def lessonSteps (friendly_text : String) : List (List Char) :=
  (splitOnChar '\n' friendly_text.data).filter (fun s => !(pyStripL s).isEmpty)

/-- app.py lines 737-741: clamp the stored `progress_step` against the
recomputed step count before it is used as an index. -/
def clampStep (progress_step : Int) (total_steps : Nat) : Int :=
  let c := if progress_step < 0 then 0 else progress_step
  if c ≥ (total_steps : Int) then (total_steps : Int) - 1 else c

/-- The step index the learner view uses to display lesson `l` for
assignment `a` (the value indexing `steps[current_step]` at line 750). -/
def displayedStepIndex (l : Lesson) (a : Assignment) : Int :=
  clampStep a.progress_step (lessonSteps l.friendly_text).length

/-- app.py lines 767-776, the "Next" button: if the clamped current step is
below `total_steps - 1`, persist `current_step + 1`; otherwise nothing happens. -/
def advanceForward (a : Assignment) (total_steps : Nat) : Assignment :=
  let current := clampStep a.progress_step total_steps
  if current < (total_steps : Int) - 1 then { a with progress_step := current + 1 } else a

/-- app.py lines 756-765, the "Back" button: if the clamped current step is
positive, persist `current_step - 1`; otherwise nothing happens. -/
def advanceBackward (a : Assignment) (total_steps : Nat) : Assignment :=
  let current := clampStep a.progress_step total_steps
  if current > 0 then { a with progress_step := current - 1 } else a

/-- app.py lines 779-791, the "I finished this lesson" button: shown only when
`status != 'completed'`; it sets status, snaps `progress_step` to
`total_steps - 1` and records the timestamp. An already completed assignment
is left untouched. -/
def completeAssignment (a : Assignment) (total_steps : Nat) (now : String) : Assignment :=
  if a.status ≠ "completed" then
    { a with status := "completed",
             progress_step := (total_steps : Int) - 1,
             completed_at := some now }
  else a

/-- The message shown next to the complete button (lines 790 and 793). -/
def completeMessage (a : Assignment) : String :=
  if a.status ≠ "completed" then "Great job! Lesson marked as complete."
  else "Already marked as complete. Well done!"

/-! ## Store-level operations -/

/-- `SELECT * FROM lessons WHERE id = ?` (via the join in `get_assigned_lessons`). -/
def findLesson (db : Store) (lesson_id : Nat) : Option Lesson :=
  db.lessons.find? (fun l => l.id == lesson_id)

/-- The `total_steps` for an assignment, recomputed at read time from its
lesson's current `friendly_text` (an assignment whose lesson is missing never
appears in the joined view, so its step count is irrelevant; 0 is used). -/
def totalStepsFor (db : Store) (a : Assignment) : Nat :=
  match findLesson db a.lesson_id with
  | some l => (lessonSteps l.friendly_text).length
  | none => 0

/-- `UPDATE lesson_assignments SET ... WHERE id = ?`: apply `f` to the rows
with the given id. -/
def updateAssignment (db : Store) (aid : Nat) (f : Assignment → Assignment) : Store :=
  { db with lesson_assignments :=
      db.lesson_assignments.map (fun a => if a.id == aid then f a else a) }

/-- `INSERT INTO lesson_assignments (...) VALUES (?, ?, 'assigned', 0, NULL)`
(app.py lines 448-451 and 640-643). -/
def createAssignment (db : Store) (newId lesson_id learner_id : Nat) : Store :=
  { db with lesson_assignments :=
      db.lesson_assignments ++ [⟨newId, lesson_id, learner_id, "assigned", 0, none⟩] }

/-- `INSERT INTO lessons ...` (app.py lines 436-443 and 628-635). -/
def createLesson (db : Store) (l : Lesson) : Store :=
  { db with lessons := db.lessons ++ [l] }

/-- The operations that touch the `lesson_assignments` table, plus the pure
read of the learner view. -/
inductive Op where
  | create (newId lesson_id learner_id : Nat)
  | addLesson (l : Lesson)
  | forward (aid : Nat)
  | backward (aid : Nat)
  | complete (aid : Nat) (now : String)
  | read (learner_id : Nat)
deriving DecidableEq

/-- One interaction with the store. `forward`/`backward`/`complete` recompute
`total_steps` from the assignment's lesson exactly as the learner view does;
`read` performs no write. -/
def applyOp (db : Store) : Op → Store
  | .create nid lid uid => createAssignment db nid lid uid
  | .addLesson l => createLesson db l
  | .forward aid => updateAssignment db aid (fun a => advanceForward a (totalStepsFor db a))
  | .backward aid => updateAssignment db aid (fun a => advanceBackward a (totalStepsFor db a))
  | .complete aid now => updateAssignment db aid (fun a => completeAssignment a (totalStepsFor db a) now)
  | .read _ => db

/-- The store reached from a fresh database by a sequence of operations. -/
def reachable (ops : List Op) : Store :=
  ops.foldl applyOp emptyStore

/-- Every assignment's status is one of the two legal values. -/
def statusOk (db : Store) : Prop :=
  ∀ a ∈ db.lesson_assignments, a.status = "assigned" ∨ a.status = "completed"

instance (db : Store) : Decidable (statusOk db) := by
  unfold statusOk; infer_instance

/-- Rows `a` (old) and `a'` (new) agree on everything except possibly
`progress_step`, and agree completely unless the row is the targeted one. -/
def agreesExceptProgress (aid : Nat) (a a' : Assignment) : Prop :=
  a'.id = a.id ∧ a'.lesson_id = a.lesson_id ∧ a'.learner_id = a.learner_id ∧
  a'.status = a.status ∧ a'.completed_at = a.completed_at ∧
  (a.id ≠ aid → a' = a)

/-- Rows `a` (old) and `a'` (new) have the same id, and a completed status is
never lost. -/
def keepsCompleted (a a' : Assignment) : Prop :=
  a'.id = a.id ∧ (a.status = "completed" → a'.status = "completed")

/-! ## Help mailbox (app.py lines 806-822) -/

/-- The "Send help request" handler: an all-whitespace message is rejected
with an inline error and nothing is inserted; otherwise the stripped message
is inserted with `resolved = 0`. -/
def submitHelpRequest (db : Store) (newId learner_id to_user_id : Nat)
    (message now : String) : Store :=
  if (pyStripL message.data).isEmpty then db
  else
    { db with help_requests :=
        db.help_requests ++ [⟨newId, learner_id, to_user_id, ⟨pyStripL message.data⟩, now, false⟩] }

/-! ## Signup (app.py lines 293-312) -/

/-- `get_user_by_email`: first `users` row with the given email. -/
def get_user_by_email (db : Store) (email : String) : Option Account :=
  db.users.find? (fun u => u.email == email)

/-- The "Sign up" button handler: empty required field, password mismatch or
an existing account with the same email abort with an inline error and no
insert; otherwise one user row is inserted with the chosen role. -/
def signup (sha256hex : String → String) (db : Store) (newId : Nat)
    (name email password password2 role : String) : Store :=
  if name == "" || email == "" || password == "" then db
  else if password != password2 then db
  else if (get_user_by_email db email).isSome then db
  else
    { db with users :=
        db.users ++ [⟨newId, name, email, hash_password sha256hex password, role⟩] }

/-! ## Linked grown-ups query (app.py lines 243-251) -/

/-- The matching rows of one `LEFT JOIN` arm: the edge rows satisfying the
join condition, or a single NULL row when there are none. -/
def leftJoinMatches (p : Edge → Bool) (xs : List Edge) : List (Option Edge) :=
  match xs.filter p with
  | [] => [none]
  | y :: ys => (y :: ys).map some

/-- `get_linked_grownups_for_learner`: users LEFT JOINed against both edge
tables on (grownup-id matches, learner-id is the given learner), keeping rows
where at least one arm matched, projecting `u.*` and applying DISTINCT. -/
def get_linked_grownups_for_learner (db : Store) (lid : Nat) : List Account :=
  ((((db.users.flatMap (fun u =>
      (leftJoinMatches (fun e => e.grownup_id == u.id && e.learner_id == lid)
          db.teacher_learners).flatMap (fun t =>
        (leftJoinMatches (fun e => e.grownup_id == u.id && e.learner_id == lid)
            db.parent_children).map (fun q => (u, t, q)))))).filter
      (fun r => r.2.1.isSome || r.2.2.isSome)).map (fun r => r.1)).dedup

/-- app.py line 804: the label shown for a grown-up in the help-request
selector, `f"{g['name']} ({g['role']})"` — built from the account's own
`role` column. -/
def grownupLabel (g : Account) : String :=
  g.name ++ " (" ++ g.role ++ ")"

/-- Whether a grown-up account is linked to the learner via either edge table
(ignoring edge multiplicity). -/
def isLinked (db : Store) (lid : Nat) (u : Account) : Bool :=
  db.teacher_learners.any (fun e => e.grownup_id == u.id && e.learner_id == lid) ||
  db.parent_children.any (fun e => e.grownup_id == u.id && e.learner_id == lid)

/-! ## Local fallback simplifier (app.py lines 99-108 and 150-155) -/

/-- app.py line 100: `text.replace("\n", " ")`. -/
def nlToSpace (c : Char) : Char :=
  if c = '\n' then ' ' else c

/-- app.py line 100: the non-empty stripped sentences of the text, split on ".". -/
def sentencesOf (text : List Char) : List (List Char) :=
  ((splitOnChar '.' (text.map nlToSpace)).map pyStripL).filter (fun s => !s.isEmpty)

/-- Worker for `chunksOf`: the fuel argument only bounds the number of loop
iterations (it is instantiated with the list length) so that the definition
is structurally recursive and computable. -/
def chunksOfGo (n : Nat) : Nat → List (List Char) → List (List (List Char))
  | _, [] => []
  | Nat.succ fuel, x :: xs => (x :: xs.take (n - 1)) :: chunksOfGo n fuel (xs.drop (n - 1))
  | 0, _ :: _ => []

/-- The slices `sentences[i:i+n]` for `i in range(0, len(sentences), n)`
(for `n ≥ 1`; the source only calls this with n = 1 or 2). -/
def chunksOf (n : Nat) (l : List (List Char)) : List (List (List Char)) :=
  chunksOfGo n l.length l

/-- app.py lines 103-107, the body of the loop for one chunk: join with ". ",
strip, add a trailing "." if missing. -/
def renderChunk (chunk : List (List Char)) : List Char :=
  let part := pyStripL (joinSep ('.' :: ' ' :: []) chunk)
  if !part.isEmpty && !(part.getLast? == some '.') then part ++ ('.' :: []) else part

/-- app.py `split_into_steps`: split into sentences, chunk, render each chunk,
keeping only non-empty rendered parts. -/
def split_into_steps (text : List Char) (sentences_per_step : Nat) : List (List Char) :=
  (chunksOf sentences_per_step (sentencesOf text)).foldr
    (fun chunk steps =>
      let part := renderChunk chunk
      if !part.isEmpty then part :: steps else steps) []

/-- The numbering prefix `f"Step {n}: "`. -/
def stepLabel (n : Nat) : List Char :=
  "Step ".data ++ (Nat.repr n).data ++ ": ".data

/-- app.py lines 153-155, the local fallback of
`generate_friendly_text_with_openai`: number the steps of
`split_into_steps(original, 2)` sequentially (the final `"\n\n".join` is
presentation only; the list of numbered lines is modelled). -/
def localFallback (original : List Char) : List (List Char) :=
  (split_into_steps original 2).enum.map (fun p => stepLabel (p.1 + 1) ++ p.2)

/-! ## Sample data used by concrete instantiations -/

/-- A lesson whose friendly text has two non-empty lines (two steps). -/
def sampleLesson : Lesson :=
  ⟨1, 2, "teacher", "Counting", "one. two.", "one\ntwo", "", "2025-01-01T00:00:00"⟩

/-- A lesson whose friendly text passed the truthiness check at save time
(`if not friendly_text`) yet has no non-empty line. -/
def blankLesson : Lesson :=
  ⟨2, 2, "teacher", "Blank", "x", " ", "", "2025-01-01T00:00:00"⟩

/-- A freshly created assignment of `sampleLesson`. -/
def a0 : Assignment := ⟨1, 1, 3, "assigned", 0, none⟩

/-- An assignment with a negative stored `progress_step`. -/
def aNeg : Assignment := ⟨2, 1, 3, "assigned", -5, none⟩

/-- A completed assignment. -/
def aDone : Assignment := ⟨3, 1, 3, "completed", 1, some "2025-01-02T00:00:00"⟩

/-- A small populated store. -/
def dbSample : Store := ⟨[], [], [], [sampleLesson], [a0, aDone], []⟩

/-- A grown-up whose account role is "teacher". -/
def grownupTeacher : Account := ⟨7, "Sam", "sam@x.io", "h", "teacher"⟩

/-- A store in which `grownupTeacher` is linked to learner 3 twice, and only
through the `parent_children` table. -/
def dbLinked : Store := ⟨[grownupTeacher], [], [⟨7, 3⟩, ⟨7, 3⟩], [], [], []⟩

/-- A three-sentence input for the fallback simplifier. -/
def sampleText : List Char := "a. b. c.".data

/-! ## Theorems -/

/-- The clamp of app.py lines 737-741 lands in `[0, total_steps - 1]`
whenever there is at least one step. -/
theorem clampStep_bounds (p : Int) (t : Nat) (h : 1 ≤ t) :
    0 ≤ clampStep p t ∧ clampStep p t ≤ (t : Int) - 1 := by
  simp only [clampStep]
  split <;> split <;> omega

/-- C1 (amended): for every assignment row read by the learner view whose
lesson's friendly text has at least one non-empty line, the step index used to
display the lesson lies in `[0, total_steps - 1]`, even when the stored
`progress_step` is negative or at least `total_steps`, so `steps[current_step]`
is in bounds. (The original claim fails when the friendly text has no
non-empty line: see the counterexample.) -/
theorem C1_displayed_step_in_range (l : Lesson) (a : Assignment)
    (h : 1 ≤ (lessonSteps l.friendly_text).length) :
    0 ≤ displayedStepIndex l a ∧
    displayedStepIndex l a ≤ ((lessonSteps l.friendly_text).length : Int) - 1 :=
  clampStep_bounds a.progress_step _ h

/-- C1 witness: a two-step lesson with a stored step of -5 displays step 0. -/
theorem C1_displayed_step_in_range_witness :
    1 ≤ (lessonSteps sampleLesson.friendly_text).length ∧
    (0 ≤ displayedStepIndex sampleLesson aNeg ∧
     displayedStepIndex sampleLesson aNeg ≤
       ((lessonSteps sampleLesson.friendly_text).length : Int) - 1) :=
  ⟨by decide, C1_displayed_step_in_range sampleLesson aNeg (by decide)⟩

/-- C1 counterexample: a lesson whose friendly text is `" "` (truthy, so it
passes the save-time validation) has zero steps; the view computes index -1,
which is not in `[0, total_steps - 1]`, and Python's `steps[-1]` on the empty
list raises IndexError instead of displaying a step. -/
theorem C1_counterexample :
    (lessonSteps blankLesson.friendly_text).length = 0 ∧
    displayedStepIndex blankLesson a0 = -1 ∧
    ¬(0 ≤ displayedStepIndex blankLesson a0 ∧
      displayedStepIndex blankLesson a0 ≤
        ((lessonSteps blankLesson.friendly_text).length : Int) - 1) := by
  decide

/-- C2: for every assignment and recomputed step count, with `current` the
clamped current step: "Next" sets `progress_step` to `current + 1` exactly
when `current < total_steps - 1` and otherwise changes nothing, and "Back"
sets it to `current - 1` exactly when `current > 0` and otherwise changes
nothing; neither is an error. -/
theorem C2_advance (a : Assignment) (t : Nat) :
    (clampStep a.progress_step t < (t : Int) - 1 →
      advanceForward a t = { a with progress_step := clampStep a.progress_step t + 1 }) ∧
    (¬ clampStep a.progress_step t < (t : Int) - 1 → advanceForward a t = a) ∧
    (0 < clampStep a.progress_step t →
      advanceBackward a t = { a with progress_step := clampStep a.progress_step t - 1 }) ∧
    (¬ 0 < clampStep a.progress_step t → advanceBackward a t = a) := by
  simp only [advanceForward, advanceBackward]
  refine ⟨fun h => ?_, fun h => ?_, fun h => ?_, fun h => ?_⟩
  · rw [if_pos h]
  · rw [if_neg h]
  · rw [if_pos h]
  · rw [if_neg h]

/-- C2 witness: on a two-step lesson at step 0, "Next" moves to step 1 and
"Back" is a no-op. -/
theorem C2_advance_witness :
    advanceForward a0 2 = { a0 with progress_step := clampStep a0.progress_step 2 + 1 } ∧
    advanceBackward a0 2 = a0 :=
  ⟨(C2_advance a0 2).1 (by decide), (C2_advance a0 2).2.2.2 (by decide)⟩

/-- C3: completing a not-yet-completed assignment sets status to "completed",
snaps `progress_step` to `total_steps - 1` regardless of its prior value and
records the completion timestamp; on an already completed assignment the
operation leaves the state unchanged and shows the already-done message, and
the operation is idempotent. -/
theorem C3_complete (a : Assignment) (t : Nat) (now : String) :
    (a.status ≠ "completed" →
      completeAssignment a t now =
        { a with status := "completed", progress_step := (t : Int) - 1,
                 completed_at := some now }) ∧
    (a.status = "completed" →
      completeAssignment a t now = a ∧
      completeMessage a = "Already marked as complete. Well done!") ∧
    completeAssignment (completeAssignment a t now) t now = completeAssignment a t now := by
  by_cases h : a.status = "completed" <;>
    simp [completeAssignment, completeMessage, h]

/-- C3 witness: completing the fresh assignment snaps it to the last step and
stamps it; completing the already completed one changes nothing. -/
theorem C3_complete_witness :
    completeAssignment a0 2 "2025-01-03T00:00:00" =
      { a0 with status := "completed", progress_step := ((2 : Nat) : Int) - 1,
                completed_at := some "2025-01-03T00:00:00" } ∧
    completeAssignment aDone 2 "2025-01-03T00:00:00" = aDone :=
  ⟨(C3_complete a0 2 "2025-01-03T00:00:00").1 (by decide),
   ((C3_complete aDone 2 "2025-01-03T00:00:00").2.1 (by decide)).1⟩

/-- C10: checking a password against the hash stored at signup always
succeeds for the original password (hashing is deterministic), and checking
`pw1` against `pw2`'s stored hash succeeds exactly when the two digests
agree. -/
theorem C10_check_password (sha256hex : String → String) (pw1 pw2 : String) :
    check_password sha256hex pw1 (hash_password sha256hex pw1) = true ∧
    (check_password sha256hex pw1 (hash_password sha256hex pw2) = true ↔
      hash_password sha256hex pw1 = hash_password sha256hex pw2) := by
  constructor
  · simp [check_password, hash_password]
  · simp [check_password, hash_password]

/-- C10 witness: concrete instantiation with the identity digest. -/
theorem C10_check_password_witness :
    check_password (fun s => s) "secret" (hash_password (fun s => s) "secret") = true :=
  (C10_check_password (fun s => s) "secret" "secret").1

/-! ## Field-preservation helpers for the advance/complete operations -/

/-- Pressing "Next" touches nothing but `progress_step`. -/
theorem advanceForward_fields (a : Assignment) (t : Nat) :
    (advanceForward a t).id = a.id ∧ (advanceForward a t).lesson_id = a.lesson_id ∧
    (advanceForward a t).learner_id = a.learner_id ∧ (advanceForward a t).status = a.status ∧
    (advanceForward a t).completed_at = a.completed_at := by
  simp only [advanceForward]
  split <;> simp

/-- Pressing "Back" touches nothing but `progress_step`. -/
theorem advanceBackward_fields (a : Assignment) (t : Nat) :
    (advanceBackward a t).id = a.id ∧ (advanceBackward a t).lesson_id = a.lesson_id ∧
    (advanceBackward a t).learner_id = a.learner_id ∧ (advanceBackward a t).status = a.status ∧
    (advanceBackward a t).completed_at = a.completed_at := by
  simp only [advanceBackward]
  split <;> simp

/-- Completion keeps the row id. -/
theorem completeAssignment_id (a : Assignment) (t : Nat) (now : String) :
    (completeAssignment a t now).id = a.id := by
  simp only [completeAssignment]
  split <;> simp

/-- Completion leaves an already completed assignment untouched. -/
theorem completeAssignment_keeps_completed (a : Assignment) (t : Nat) (now : String)
    (h : a.status = "completed") : completeAssignment a t now = a := by
  simp [completeAssignment, h]

/-- After completion the status is "completed" or was left as it was. -/
theorem completeAssignment_status_cases (a : Assignment) (t : Nat) (now : String) :
    (completeAssignment a t now).status = "completed" ∨
    (completeAssignment a t now).status = a.status := by
  simp only [completeAssignment]
  split <;> simp

/-- Mapping a function that relates to each element pointwise gives `Forall₂`. -/
theorem forall₂_map_self {α : Type} {R : α → α → Prop} {g : α → α}
    (hg : ∀ a, R a (g a)) : ∀ l : List α, List.Forall₂ R l (l.map g)
  | [] => List.Forall₂.nil
  | a :: l => List.Forall₂.cons (hg a) (forall₂_map_self hg l)

/-- Taking the length of the original list from a mapped list is the whole
mapped list. -/
theorem take_length_map {α β : Type} (g : α → β) (l : List α) :
    (l.map g).take l.length = l.map g := by
  rw [← List.length_map l g]
  exact List.take_length _

/-- Every operation preserves the two-valued status invariant. -/
theorem statusOk_applyOp (db : Store) (op : Op) (h : statusOk db) :
    statusOk (applyOp db op) := by
  cases op with
  | create nid lid uid =>
    intro a ha
    simp only [applyOp, createAssignment] at ha
    rcases List.mem_append.mp ha with h1 | h1
    · exact h a h1
    · rw [List.mem_singleton] at h1
      subst h1
      left
      rfl
  | addLesson l =>
    intro a ha
    exact h a ha
  | forward aid =>
    intro a ha
    simp only [applyOp, updateAssignment, List.mem_map] at ha
    obtain ⟨b, hb, rfl⟩ := ha
    by_cases hid : (b.id == aid) = true
    · rw [if_pos hid, (advanceForward_fields b (totalStepsFor db b)).2.2.2.1]
      exact h b hb
    · rw [if_neg hid]
      exact h b hb
  | backward aid =>
    intro a ha
    simp only [applyOp, updateAssignment, List.mem_map] at ha
    obtain ⟨b, hb, rfl⟩ := ha
    by_cases hid : (b.id == aid) = true
    · rw [if_pos hid, (advanceBackward_fields b (totalStepsFor db b)).2.2.2.1]
      exact h b hb
    · rw [if_neg hid]
      exact h b hb
  | complete aid now =>
    intro a ha
    simp only [applyOp, updateAssignment, List.mem_map] at ha
    obtain ⟨b, hb, rfl⟩ := ha
    by_cases hid : (b.id == aid) = true
    · rw [if_pos hid]
      rcases completeAssignment_status_cases b (totalStepsFor db b) now with hs | hs
      · right
        exact hs
      · rw [hs]
        exact h b hb
    · rw [if_neg hid]
      exact h b hb
  | read lid =>
    exact h

/-- C4: in every state reachable from the fresh database, every assignment's
status is "assigned" or "completed", and no single operation ever turns a
completed assignment back into an assigned one (status moves one way only). -/
theorem C4_status_invariant :
    (∀ ops : List Op, statusOk (reachable ops)) ∧
    (∀ (db : Store) (op : Op),
      List.Forall₂ keepsCompleted db.lesson_assignments
        ((applyOp db op).lesson_assignments.take db.lesson_assignments.length)) := by
  constructor
  · have hfold : ∀ (ops : List Op) (db : Store), statusOk db →
        statusOk (ops.foldl applyOp db) := by
      intro ops
      induction ops with
      | nil => exact fun db h => h
      | cons op ops ih => exact fun db h => ih (applyOp db op) (statusOk_applyOp db op h)
    intro ops
    refine hfold ops emptyStore ?_
    intro a ha
    simp [emptyStore] at ha
  · intro db op
    cases op with
    | create nid lid uid =>
      simp only [applyOp, createAssignment]
      rw [List.take_left]
      exact List.forall₂_same.mpr (fun a _ => ⟨rfl, id⟩)
    | addLesson l =>
      simp only [applyOp, createLesson]
      rw [List.take_length]
      exact List.forall₂_same.mpr (fun a _ => ⟨rfl, id⟩)
    | forward aid =>
      simp only [applyOp, updateAssignment]
      rw [take_length_map]
      refine forall₂_map_self (fun a => ?_) db.lesson_assignments
      by_cases hid : (a.id == aid) = true
      · rw [if_pos hid]
        exact ⟨(advanceForward_fields a _).1,
          fun hs => by rw [(advanceForward_fields a _).2.2.2.1]; exact hs⟩
      · rw [if_neg hid]
        exact ⟨rfl, id⟩
    | backward aid =>
      simp only [applyOp, updateAssignment]
      rw [take_length_map]
      refine forall₂_map_self (fun a => ?_) db.lesson_assignments
      by_cases hid : (a.id == aid) = true
      · rw [if_pos hid]
        exact ⟨(advanceBackward_fields a _).1,
          fun hs => by rw [(advanceBackward_fields a _).2.2.2.1]; exact hs⟩
      · rw [if_neg hid]
        exact ⟨rfl, id⟩
    | complete aid now =>
      simp only [applyOp, updateAssignment]
      rw [take_length_map]
      refine forall₂_map_self (fun a => ?_) db.lesson_assignments
      by_cases hid : (a.id == aid) = true
      · rw [if_pos hid]
        refine ⟨completeAssignment_id a _ now, fun hs => ?_⟩
        rw [completeAssignment_keeps_completed a _ now hs]
        exact hs
      · rw [if_neg hid]
        exact ⟨rfl, id⟩
    | read lid =>
      simp only [applyOp]
      rw [List.take_length]
      exact List.forall₂_same.mpr (fun a _ => ⟨rfl, id⟩)

/-- C4 witness: a concrete run (add a lesson, assign it, complete it) keeps
the invariant, and a concrete forward press never un-completes a row. -/
theorem C4_status_invariant_witness :
    statusOk (reachable
      [Op.addLesson sampleLesson, Op.create 1 1 3, Op.complete 1 "2025-01-03T00:00:00"]) ∧
    List.Forall₂ keepsCompleted dbSample.lesson_assignments
      ((applyOp dbSample (Op.forward 1)).lesson_assignments.take
        dbSample.lesson_assignments.length) :=
  ⟨C4_status_invariant.1 _, C4_status_invariant.2 dbSample (Op.forward 1)⟩

/-- C5: a "Next" or "Back" press on assignment `aid` leaves every other table
identical, keeps the assignment list aligned row by row, and on each row
changes at most `progress_step` — and changes nothing at all on rows other
than the targeted one. -/
theorem C5_advance_frame (db : Store) (aid : Nat) :
    ((applyOp db (Op.forward aid)).users = db.users ∧
     (applyOp db (Op.forward aid)).teacher_learners = db.teacher_learners ∧
     (applyOp db (Op.forward aid)).parent_children = db.parent_children ∧
     (applyOp db (Op.forward aid)).lessons = db.lessons ∧
     (applyOp db (Op.forward aid)).help_requests = db.help_requests ∧
     List.Forall₂ (agreesExceptProgress aid) db.lesson_assignments
       (applyOp db (Op.forward aid)).lesson_assignments) ∧
    ((applyOp db (Op.backward aid)).users = db.users ∧
     (applyOp db (Op.backward aid)).teacher_learners = db.teacher_learners ∧
     (applyOp db (Op.backward aid)).parent_children = db.parent_children ∧
     (applyOp db (Op.backward aid)).lessons = db.lessons ∧
     (applyOp db (Op.backward aid)).help_requests = db.help_requests ∧
     List.Forall₂ (agreesExceptProgress aid) db.lesson_assignments
       (applyOp db (Op.backward aid)).lesson_assignments) := by
  refine ⟨⟨rfl, rfl, rfl, rfl, rfl, ?_⟩, ⟨rfl, rfl, rfl, rfl, rfl, ?_⟩⟩
  · refine forall₂_map_self (fun a => ?_) db.lesson_assignments
    simp only [agreesExceptProgress]
    by_cases hid : (a.id == aid) = true
    · rw [if_pos hid]
      have hf := advanceForward_fields a (totalStepsFor db a)
      exact ⟨hf.1, hf.2.1, hf.2.2.1, hf.2.2.2.1, hf.2.2.2.2,
        fun hne => absurd (beq_iff_eq.mp hid) hne⟩
    · rw [if_neg hid]
      exact ⟨rfl, rfl, rfl, rfl, rfl, fun _ => rfl⟩
  · refine forall₂_map_self (fun a => ?_) db.lesson_assignments
    simp only [agreesExceptProgress]
    by_cases hid : (a.id == aid) = true
    · rw [if_pos hid]
      have hf := advanceBackward_fields a (totalStepsFor db a)
      exact ⟨hf.1, hf.2.1, hf.2.2.1, hf.2.2.2.1, hf.2.2.2.2,
        fun hne => absurd (beq_iff_eq.mp hid) hne⟩
    · rw [if_neg hid]
      exact ⟨rfl, rfl, rfl, rfl, rfl, fun _ => rfl⟩

/-- C5 witness: concrete instantiation on the sample store. -/
theorem C5_advance_frame_witness :
    (applyOp dbSample (Op.forward 1)).users = dbSample.users ∧
    List.Forall₂ (agreesExceptProgress 1) dbSample.lesson_assignments
      (applyOp dbSample (Op.forward 1)).lesson_assignments :=
  ⟨(C5_advance_frame dbSample 1).1.1, (C5_advance_frame dbSample 1).1.2.2.2.2.2⟩

/-! ## Help mailbox and signup -/

/-- Python's `strip()` yields the empty string exactly on all-whitespace
input. -/
theorem pyStripL_eq_nil_iff (l : List Char) :
    pyStripL l = [] ↔ ∀ c ∈ l, pyWhitespace c = true := by
  unfold pyStripL
  rw [List.reverse_eq_nil_iff, List.dropWhile_eq_nil_iff]
  constructor
  · intro h c hc
    have hc' : c ∈ l.takeWhile pyWhitespace ++ l.dropWhile pyWhitespace := by
      rw [List.takeWhile_append_dropWhile pyWhitespace l]
      exact hc
    rcases List.mem_append.mp hc' with h1 | h1
    · exact List.mem_takeWhile_imp h1
    · exact h c (List.mem_reverse.mpr h1)
  · intro h c hc
    exact h c ((List.dropWhile_sublist pyWhitespace).subset (List.mem_reverse.mp hc))

/-- C6: submitting a help request with an all-whitespace (or empty) message
inserts nothing and leaves the store unchanged; any message with a
non-whitespace character inserts exactly one row, carrying the stripped
message and `resolved = false`, and changes nothing else. -/
theorem C6_help_request (db : Store) (nid lid gid : Nat) (message now : String) :
    ((∀ c ∈ message.data, pyWhitespace c = true) →
      submitHelpRequest db nid lid gid message now = db) ∧
    ((∃ c ∈ message.data, ¬ pyWhitespace c = true) →
      submitHelpRequest db nid lid gid message now =
        { db with help_requests :=
            db.help_requests ++ [⟨nid, lid, gid, ⟨pyStripL message.data⟩, now, false⟩] }) := by
  constructor
  · intro h
    have hnil : pyStripL message.data = [] := (pyStripL_eq_nil_iff message.data).mpr h
    simp [submitHelpRequest, hnil]
  · rintro ⟨c, hc, hw⟩
    have hne : ¬ pyStripL message.data = [] :=
      fun hnil => hw ((pyStripL_eq_nil_iff message.data).mp hnil c hc)
    simp [submitHelpRequest, List.isEmpty_iff, hne]

/-- C6 witness: a whitespace-only message is rejected; " help " inserts one
unresolved row with the stripped text. -/
theorem C6_help_request_witness :
    submitHelpRequest dbSample 1 3 2 "  " "2025-01-04T00:00:00" = dbSample ∧
    submitHelpRequest dbSample 1 3 2 " help " "2025-01-04T00:00:00" =
      { dbSample with help_requests :=
          dbSample.help_requests ++
            [⟨1, 3, 2, ⟨pyStripL " help ".data⟩, "2025-01-04T00:00:00", false⟩] } :=
  ⟨(C6_help_request dbSample 1 3 2 "  " "2025-01-04T00:00:00").1 (by decide),
   (C6_help_request dbSample 1 3 2 " help " "2025-01-04T00:00:00").2 (by decide)⟩

/-- Finding a user by email succeeds exactly when some row has that email. -/
theorem get_user_by_email_isSome_iff (db : Store) (email : String) :
    (get_user_by_email db email).isSome = true ↔ ∃ u ∈ db.users, u.email = email := by
  unfold get_user_by_email
  rw [List.find?_isSome]
  constructor
  · rintro ⟨u, hu, he⟩
    exact ⟨u, hu, beq_iff_eq.mp he⟩
  · rintro ⟨u, hu, he⟩
    exact ⟨u, hu, beq_iff_eq.mpr he⟩

/-- C6/C7 shared shape is not needed; C7: a signup attempt with an empty
required field, mismatched passwords, or an email that already has an account
inserts nothing and leaves the store unchanged; otherwise exactly one user row
is inserted, carrying the chosen role and the hash of the password. -/
theorem C7_signup (sha256hex : String → String) (db : Store) (nid : Nat)
    (name email password password2 role : String) :
    ((name = "" ∨ email = "" ∨ password = "" ∨ password ≠ password2 ∨
        ∃ u ∈ db.users, u.email = email) →
      signup sha256hex db nid name email password password2 role = db) ∧
    ((name ≠ "" ∧ email ≠ "" ∧ password ≠ "" ∧ password = password2 ∧
        ∀ u ∈ db.users, u.email ≠ email) →
      signup sha256hex db nid name email password password2 role =
        { db with users :=
            db.users ++ [⟨nid, name, email, hash_password sha256hex password, role⟩] }) := by
  constructor
  · intro h
    by_cases h1 : (name == "" || email == "" || password == "") = true
    · simp [signup, h1]
    · by_cases h2 : (password != password2) = true
      · simp [signup, h1, h2]
      · by_cases h3 : (get_user_by_email db email).isSome = true
        · simp [signup, h1, h2, h3]
        · exfalso
          simp only [Bool.or_eq_true, beq_iff_eq] at h1
          push_neg at h1
          rcases h with h | h | h | h | h
          · exact h1.1.1 h
          · exact h1.1.2 h
          · exact h1.2 h
          · exact h2 (bne_iff_ne.mpr h)
          · exact h3 ((get_user_by_email_isSome_iff db email).mpr h)
  · rintro ⟨hn, he, hp, hpw, hex⟩
    have h1 : (name == "" || email == "" || password == "") = false := by
      simp [hn, he, hp]
    have h2 : (password != password2) = false := by
      simp [hpw]
    have h3 : (get_user_by_email db email).isSome = false := by
      rw [Bool.eq_false_iff]
      intro hc
      obtain ⟨u, hu, heq⟩ := (get_user_by_email_isSome_iff db email).mp hc
      exact hex u hu heq
    simp [signup, h1, h2, h3]

/-- C7 witness: a signup with mismatched passwords changes nothing; a valid
signup on the sample store inserts exactly the one new learner row. -/
theorem C7_signup_witness :
    signup (fun s => s) dbSample 1 "Ada" "ada@x.io" "pw" "pw2" "learner" = dbSample ∧
    signup (fun s => s) dbSample 1 "Ada" "ada@x.io" "pw" "pw" "learner" =
      { dbSample with users :=
          dbSample.users ++ [⟨1, "Ada", "ada@x.io", hash_password (fun s => s) "pw", "learner"⟩] } :=
  ⟨(C7_signup (fun s => s) dbSample 1 "Ada" "ada@x.io" "pw" "pw2" "learner").1
      (Or.inr (Or.inr (Or.inr (Or.inl (by decide))))),
   (C7_signup (fun s => s) dbSample 1 "Ada" "ada@x.io" "pw" "pw" "learner").2
      ⟨by decide, by decide, by decide, rfl, by decide⟩⟩

/-! ## The linked-grown-ups query -/

/-- Boolean disjunction in `Prop` form. -/
theorem bool_or_iff (a b : Bool) : (a || b) = true ↔ a = true ∨ b = true := by
  simp

/-- A `some` row comes out of a LEFT JOIN arm exactly when a matching edge
exists. -/
theorem some_mem_leftJoinMatches (p : Edge → Bool) (xs : List Edge) (e : Edge) :
    some e ∈ leftJoinMatches p xs ↔ e ∈ xs ∧ p e = true := by
  unfold leftJoinMatches
  cases hf : xs.filter p with
  | nil =>
    simp only [List.mem_singleton]
    constructor
    · intro h
      exact Option.noConfusion h
    · rintro ⟨he, hp⟩
      have hm : e ∈ xs.filter p := List.mem_filter.mpr ⟨he, hp⟩
      rw [hf] at hm
      simp at hm
  | cons y ys =>
    simp only [List.mem_map, Option.some.injEq, exists_eq_right]
    rw [← List.mem_filter, hf]

/-- Each LEFT JOIN arm contributes at least one row (a NULL one if nothing
matched). -/
theorem leftJoinMatches_exists (p : Edge → Bool) (xs : List Edge) :
    ∃ t, t ∈ leftJoinMatches p xs := by
  unfold leftJoinMatches
  cases hf : xs.filter p with
  | nil => exact ⟨none, List.mem_singleton.mpr rfl⟩
  | cons y ys => exact ⟨some y, List.mem_map.mpr ⟨y, List.mem_cons_self y ys, rfl⟩⟩

/-- A non-NULL row of a LEFT JOIN arm carries a matching edge. -/
theorem isSome_mem_leftJoinMatches (p : Edge → Bool) (xs : List Edge) (t : Option Edge)
    (ht : t ∈ leftJoinMatches p xs) (hs : t.isSome = true) :
    ∃ e, t = some e ∧ e ∈ xs ∧ p e = true := by
  cases t with
  | none => simp at hs
  | some e => exact ⟨e, rfl, (some_mem_leftJoinMatches p xs e).mp ht⟩

/-- Membership in the result of `get_linked_grownups_for_learner`: exactly
the user rows linked by at least one edge of either kind. -/
theorem mem_get_linked_iff (db : Store) (lid : Nat) (u : Account) :
    u ∈ get_linked_grownups_for_learner db lid ↔
      u ∈ db.users ∧ isLinked db lid u = true := by
  unfold get_linked_grownups_for_learner
  rw [List.mem_dedup, List.mem_map]
  constructor
  · rintro ⟨r, hr, rfl⟩
    obtain ⟨hrz, hcond⟩ := List.mem_filter.mp hr
    obtain ⟨v, hv, hrv⟩ := List.mem_flatMap.mp hrz
    obtain ⟨t, ht, hrt⟩ := List.mem_flatMap.mp hrv
    obtain ⟨q, hq, rfl⟩ := List.mem_map.mp hrt
    refine ⟨hv, ?_⟩
    simp only at hcond
    unfold isLinked
    rcases bool_or_iff _ _ |>.mp hcond with hts | hqs
    · obtain ⟨e, rfl, he, hpe⟩ := isSome_mem_leftJoinMatches _ _ t ht hts
      exact bool_or_iff _ _ |>.mpr (Or.inl (List.any_eq_true.mpr ⟨e, he, hpe⟩))
    · obtain ⟨e, rfl, he, hpe⟩ := isSome_mem_leftJoinMatches _ _ q hq hqs
      exact bool_or_iff _ _ |>.mpr (Or.inr (List.any_eq_true.mpr ⟨e, he, hpe⟩))
  · rintro ⟨hu, hl⟩
    unfold isLinked at hl
    rcases bool_or_iff _ _ |>.mp hl with h | h
    · obtain ⟨e, he, hpe⟩ := List.any_eq_true.mp h
      obtain ⟨q, hq⟩ := leftJoinMatches_exists
        (fun e => e.grownup_id == u.id && e.learner_id == lid) db.parent_children
      refine ⟨(u, some e, q), List.mem_filter.mpr ⟨?_, by simp⟩, rfl⟩
      refine List.mem_flatMap.mpr ⟨u, hu, List.mem_flatMap.mpr ⟨some e, ?_, ?_⟩⟩
      · exact (some_mem_leftJoinMatches _ _ e).mpr ⟨he, hpe⟩
      · exact List.mem_map.mpr ⟨q, hq, rfl⟩
    · obtain ⟨e, he, hpe⟩ := List.any_eq_true.mp h
      obtain ⟨t, ht⟩ := leftJoinMatches_exists
        (fun e => e.grownup_id == u.id && e.learner_id == lid) db.teacher_learners
      refine ⟨(u, t, some e), List.mem_filter.mpr ⟨?_, by simp⟩, rfl⟩
      refine List.mem_flatMap.mpr ⟨u, hu, List.mem_flatMap.mpr ⟨t, ht, ?_⟩⟩
      exact List.mem_map.mpr ⟨some e,
        (some_mem_leftJoinMatches _ _ e).mpr ⟨he, hpe⟩, rfl⟩

/-- C8: for every store and learner, the grown-ups listing is duplicate-free
(each linked grown-up appears exactly once even when its edges are duplicated
or present in both tables), contains precisely the user rows linked via
either edge kind, and the label shown for each is built from that account's
own `role` field. -/
theorem C8_linked_grownups (db : Store) (lid : Nat) :
    (get_linked_grownups_for_learner db lid).Nodup ∧
    (∀ u, u ∈ get_linked_grownups_for_learner db lid ↔
      u ∈ db.users ∧ isLinked db lid u = true) ∧
    (∀ u ∈ get_linked_grownups_for_learner db lid,
      (get_linked_grownups_for_learner db lid).count u = 1) ∧
    (∀ u ∈ get_linked_grownups_for_learner db lid,
      grownupLabel u = u.name ++ " (" ++ u.role ++ ")") :=
  ⟨List.nodup_dedup _,
   mem_get_linked_iff db lid,
   fun _ hu => List.count_eq_one_of_mem (List.nodup_dedup _) hu,
   fun _ _ => rfl⟩

/-- C8 witness: a teacher-role account linked to learner 3 only through two
duplicate `parent_children` edges is listed, exactly once, and its label uses
the account's own role ("teacher"), not the edge kind. -/
theorem C8_linked_grownups_witness :
    (get_linked_grownups_for_learner dbLinked 3).Nodup ∧
    grownupTeacher ∈ get_linked_grownups_for_learner dbLinked 3 ∧
    (get_linked_grownups_for_learner dbLinked 3).count grownupTeacher = 1 ∧
    grownupLabel grownupTeacher = "Sam (teacher)" := by
  have h := C8_linked_grownups dbLinked 3
  have hm := (h.2.1 grownupTeacher).mpr ⟨by decide, by decide⟩
  exact ⟨h.1, hm, h.2.2.1 grownupTeacher hm, by decide⟩

/-! ## The local fallback simplifier -/

/-- A string whose strip is non-empty contains a non-whitespace character
inside the stripped part. -/
theorem pyStripL_has_content (y : List Char) (h : pyStripL y ≠ []) :
    ∃ c ∈ pyStripL y, pyWhitespace c = false := by
  unfold pyStripL at h ⊢
  have hd : ((y.dropWhile pyWhitespace).reverse.dropWhile pyWhitespace) ≠ [] := by
    intro hnil
    exact h (by rw [hnil]; rfl)
  have hl : 0 < ((y.dropWhile pyWhitespace).reverse.dropWhile pyWhitespace).length :=
    List.length_pos.mpr hd
  refine ⟨((y.dropWhile pyWhitespace).reverse.dropWhile pyWhitespace).get ⟨0, hl⟩,
    List.mem_reverse.mpr (List.get_mem _ 0 hl), ?_⟩
  exact Bool.eq_false_iff.mpr (List.dropWhile_get_zero_not pyWhitespace _ hl)

/-- If some character of `l` is not whitespace, stripping keeps something. -/
theorem pyStripL_ne_nil_of_content (l : List Char) (c : Char) (hc : c ∈ l)
    (hw : pyWhitespace c = false) : pyStripL l ≠ [] := by
  intro hnil
  have hws := (pyStripL_eq_nil_iff l).mp hnil c hc
  rw [hw] at hws
  exact Bool.noConfusion hws

/-- A character of the first part is a character of the joined string. -/
theorem mem_joinSep_head (sep x : List Char) (rest : List (List Char)) (c : Char)
    (hc : c ∈ x) : c ∈ joinSep sep (x :: rest) := by
  cases rest with
  | nil => exact hc
  | cons y ys => exact List.mem_append.mpr (Or.inl (List.mem_append.mpr (Or.inl hc)))

/-- Rendering a chunk whose first sentence has real content yields a
non-empty part. -/
theorem renderChunk_ne_nil (x : List Char) (rest : List (List Char))
    (hx : ∃ c ∈ x, pyWhitespace c = false) : renderChunk (x :: rest) ≠ [] := by
  obtain ⟨c, hc, hw⟩ := hx
  have hpart : pyStripL (joinSep ('.' :: ' ' :: []) (x :: rest)) ≠ [] :=
    pyStripL_ne_nil_of_content _ c (mem_joinSep_head _ x rest c hc) hw
  simp only [renderChunk]
  split
  · simp
  · exact hpart

/-- Every non-empty rendered chunk ends in '.'. -/
theorem renderChunk_last (chunk : List (List Char)) (h : renderChunk chunk ≠ []) :
    (renderChunk chunk).getLast? = some '.' := by
  simp only [renderChunk] at h ⊢
  set E := pyStripL (joinSep ('.' :: ' ' :: []) chunk) with hE
  by_cases hcond : (!E.isEmpty && !(E.getLast? == some '.')) = true
  · rw [if_pos hcond]
    exact List.getLast?_concat _
  · rw [if_neg hcond] at h ⊢
    rw [Bool.and_eq_true] at hcond
    push_neg at hcond
    have ha : (!E.isEmpty) = true := by
      cases he : E.isEmpty
      · rfl
      · exact absurd (List.isEmpty_iff.mp he) h
    have hb := hcond ha
    have hb' : (E.getLast? == some '.') = true := by
      cases hv : (E.getLast? == some '.')
      · rw [hv] at hb
        exact absurd rfl hb
      · rfl
    exact beq_iff_eq.mp hb'

/-- The chunking worker ignores any fuel at or above the list length. -/
theorem chunksOfGo_congr (n : Nat) : ∀ (f1 f2 : Nat) (l : List (List Char)),
    l.length ≤ f1 → l.length ≤ f2 → chunksOfGo n f1 l = chunksOfGo n f2 l := by
  intro f1
  induction f1 with
  | zero =>
    intro f2 l h1 h2
    rw [List.length_eq_zero.mp (Nat.le_zero.mp h1)]
    cases f2 <;> rfl
  | succ f ih =>
    intro f2 l h1 h2
    cases l with
    | nil => cases f2 <;> rfl
    | cons x xs =>
      cases f2 with
      | zero =>
        simp only [List.length_cons] at h2
        omega
      | succ f2 =>
        simp only [chunksOfGo]
        refine congrArg _ (ih f2 (xs.drop (n - 1)) ?_ ?_) <;>
          simp only [List.length_drop] <;>
          simp only [List.length_cons] at h1 h2 <;>
          omega

/-- Unfolding equation of `chunksOf` on a non-empty list. -/
theorem chunksOf_cons (n : Nat) (x : List Char) (xs : List (List Char)) :
    chunksOf n (x :: xs) = (x :: xs.take (n - 1)) :: chunksOf n (xs.drop (n - 1)) := by
  unfold chunksOf
  simp only [List.length_cons, chunksOfGo]
  refine congrArg _ (chunksOfGo_congr n xs.length (xs.drop (n - 1)).length (xs.drop (n - 1)) ?_ ?_)
  · simp only [List.length_drop]
    omega
  · exact le_rfl

/-- `chunksOf 2` unfolding with the slice bounds computed. -/
theorem chunksOf_two_cons (x : List Char) (xs : List (List Char)) :
    chunksOf 2 (x :: xs) = (x :: xs.take 1) :: chunksOf 2 (xs.drop 1) :=
  chunksOf_cons 2 x xs

/-- Induction along the chunking loop of size 2. -/
theorem chunksOf_two_ind {motive : List (List Char) → Prop} (h0 : motive [])
    (h1 : ∀ x xs, motive (xs.drop 1) → motive (x :: xs)) (l : List (List Char)) :
    motive l := by
  have key : ∀ (k : Nat) (l : List (List Char)), l.length ≤ k → motive l := by
    intro k
    induction k with
    | zero =>
      intro l hl
      rw [List.length_eq_zero.mp (Nat.le_zero.mp hl)]
      exact h0
    | succ k ih =>
      intro l hl
      cases l with
      | nil => exact h0
      | cons x xs =>
        refine h1 x xs (ih _ ?_)
        simp only [List.length_drop]
        simp only [List.length_cons] at hl
        omega
  exact key l.length l le_rfl

/-- The number of chunks of size 2 is the ceiling of half the list length. -/
theorem chunksOf_two_length (l : List (List Char)) :
    (chunksOf 2 l).length = (l.length + 1) / 2 := by
  induction l using chunksOf_two_ind with
  | h0 => rfl
  | h1 x xs ih =>
    rw [chunksOf_two_cons]
    simp only [List.length_cons, ih, List.length_drop]
    omega

/-- Each chunk of size 2 holds one or two sentences, the first taken from the
list. -/
theorem chunksOf_two_mem (l : List (List Char)) :
    ∀ ch ∈ chunksOf 2 l, ch.length ≤ 2 ∧ ∃ x rest, ch = x :: rest ∧ x ∈ l := by
  induction l using chunksOf_two_ind with
  | h0 =>
    intro ch hch
    simp [chunksOf, chunksOfGo] at hch
  | h1 x xs ih =>
    intro ch hch
    rw [chunksOf_two_cons] at hch
    rcases List.mem_cons.mp hch with rfl | hch
    · refine ⟨?_, x, xs.take 1, rfl, List.mem_cons_self x xs⟩
      simp only [List.length_cons, List.length_take]
      omega
    · obtain ⟨hlen, y, rest, hcr, hy⟩ := ih ch hch
      exact ⟨hlen, y, rest, hcr, List.mem_cons_of_mem x (List.drop_subset _ xs hy)⟩

/-- Chunking groups consecutive sentences: flattening restores the list. -/
theorem chunksOf_two_flatten (l : List (List Char)) :
    (chunksOf 2 l).flatten = l := by
  induction l using chunksOf_two_ind with
  | h0 => rfl
  | h1 x xs ih =>
    rw [chunksOf_two_cons]
    simp only [List.flatten_cons, ih]
    rw [List.cons_append, List.take_append_drop]

/-- The append-if-non-empty loop is a filter over the rendered chunks. -/
theorem foldr_filter_map {α β : Type} (g : α → β) (p : β → Bool) (l : List α) :
    l.foldr (fun a acc => if p (g a) then g a :: acc else acc) [] = (l.map g).filter p := by
  induction l with
  | nil => rfl
  | cons a l ih =>
    simp only [List.foldr_cons, List.map_cons, List.filter_cons, ih]

/-- `split_into_steps` keeps exactly the non-empty rendered chunks, in order. -/
theorem split_into_steps_eq (text : List Char) (n : Nat) :
    split_into_steps text n =
      ((chunksOf n (sentencesOf text)).map renderChunk).filter (fun part => !part.isEmpty) := by
  unfold split_into_steps
  exact foldr_filter_map renderChunk (fun part => !part.isEmpty) _

/-- Every sentence is non-empty. -/
theorem sentencesOf_ne_nil (text : List Char) : ∀ s ∈ sentencesOf text, s ≠ [] := by
  intro s hs
  unfold sentencesOf at hs
  obtain ⟨hmem, hne⟩ := List.mem_filter.mp hs
  intro hnil
  rw [hnil] at hne
  simp at hne

/-- Every sentence contains a non-whitespace character. -/
theorem sentencesOf_content (text : List Char) :
    ∀ s ∈ sentencesOf text, ∃ c ∈ s, pyWhitespace c = false := by
  intro s hs
  unfold sentencesOf at hs
  obtain ⟨hmem, hne⟩ := List.mem_filter.mp hs
  obtain ⟨y, hy, rfl⟩ := List.mem_map.mp hmem
  apply pyStripL_has_content
  intro hnil
  rw [hnil] at hne
  simp at hne

/-- Every rendered chunk of the sentence list is non-empty, so the filter in
`split_into_steps` keeps them all. -/
theorem renderChunk_kept (text : List Char) :
    ∀ part ∈ (chunksOf 2 (sentencesOf text)).map renderChunk, (!part.isEmpty) = true := by
  intro part hp
  obtain ⟨ch, hch, rfl⟩ := List.mem_map.mp hp
  obtain ⟨hlen, x, rest, rfl, hx⟩ := chunksOf_two_mem (sentencesOf text) ch hch
  have hne := renderChunk_ne_nil x rest (sentencesOf_content text x hx)
  cases he : (renderChunk (x :: rest)).isEmpty
  · rfl
  · exact absurd (List.isEmpty_iff.mp he) hne

/-- C9: the local fallback splits the text into non-empty sentences on ".",
groups consecutive sentences into chunks of at most 2, terminates every step
with ".", numbers the steps "Step 1:", "Step 2:", ... sequentially, and
produces exactly ceil(sentence count / 2) steps. -/
theorem C9_local_fallback (text : List Char) :
    (∀ s ∈ sentencesOf text, s ≠ []) ∧
    (∀ ch ∈ chunksOf 2 (sentencesOf text), ch.length ≤ 2) ∧
    (chunksOf 2 (sentencesOf text)).flatten = sentencesOf text ∧
    (split_into_steps text 2).length = ((sentencesOf text).length + 1) / 2 ∧
    (∀ step ∈ split_into_steps text 2, step.getLast? = some '.') ∧
    (localFallback text).length = (split_into_steps text 2).length ∧
    (∀ (i : Nat) (h1 : i < (localFallback text).length)
        (h2 : i < (split_into_steps text 2).length),
      (localFallback text).get ⟨i, h1⟩ =
        stepLabel (i + 1) ++ (split_into_steps text 2).get ⟨i, h2⟩) := by
  refine ⟨sentencesOf_ne_nil text, ?_, chunksOf_two_flatten _, ?_, ?_, ?_, ?_⟩
  · intro ch hch
    exact (chunksOf_two_mem (sentencesOf text) ch hch).1
  · rw [split_into_steps_eq, List.filter_eq_self.mpr (renderChunk_kept text),
      List.length_map, chunksOf_two_length]
  · intro step hstep
    rw [split_into_steps_eq] at hstep
    obtain ⟨hmem, hne⟩ := List.mem_filter.mp hstep
    obtain ⟨ch, hch, rfl⟩ := List.mem_map.mp hmem
    apply renderChunk_last
    intro hnil
    rw [hnil] at hne
    simp at hne
  · simp [localFallback, List.enum_length]
  · intro i h1 h2
    simp only [List.get_eq_getElem, localFallback, List.getElem_map, List.getElem_enum]

/-- C9 witness: on "a. b. c." the fallback produces ceil(3/2) = 2 steps, the
first step ends with '.', and step 0 is labelled "Step 1: ". -/
theorem C9_local_fallback_witness :
    (split_into_steps sampleText 2).length = ((sentencesOf sampleText).length + 1) / 2 ∧
    ("a. b.".data ∈ split_into_steps sampleText 2 → "a. b.".data.getLast? = some '.') ∧
    (localFallback sampleText).get ⟨0, by decide⟩ =
      stepLabel 1 ++ (split_into_steps sampleText 2).get ⟨0, by decide⟩ := by
  refine ⟨(C9_local_fallback sampleText).2.2.2.1,
    fun hm => (C9_local_fallback sampleText).2.2.2.2.1 ("a. b.".data) hm, ?_⟩
  exact (C9_local_fallback sampleText).2.2.2.2.2.2 0 (by decide) (by decide)

end CalmLearning
